import Mathlib

/-!
Verification of the lexical analyzer of the `rslint` front end.

The repository ships the lexer's test suite (`src/rslint-parse/src/lexer/tests.rs`)
but not the lexer implementation itself, so the definitions below are a shallow
embedding reconstructed from the specification (`spec.md`): the token model (§3),
the classifier tables (§2.2), the literal scanners (§4.2–§4.6), the operator
disambiguator (§4.3), the slash disambiguation with its one-token-lookback
context tracker (§4.4, §4.7), and the driver state machine (§4.8).

Source text is modelled as a `List Char` of Unicode scalar values (the spec's
cursor operates on scalars, §4.1); spans are half-open index ranges in that
list.  Each driver step yields an `Item` carrying an optional token and an
optional error, exactly as §4.8 / §6 describe.
-/

namespace RsLint

set_option maxHeartbeats 1600000

/-- Modelled from the spec: operator subtypes of `BinOp` (§3). -/
inductive BinToken where
  | Assign | Equality | StrictEquality | Inequality | StrictInequality
  | Add | Subtract | Multiply | Divide | Modulo
  | LessThan | GreaterThan | LessThanOrEqual | GreaterThanOrEqual
  | LeftBitshift | RightBitshift | UnsignedRightBitshift
  | BitwiseAnd | BitwiseOr | BitwiseXor | LogicalAnd | LogicalOr
deriving DecidableEq

/-- Modelled from the spec: compound-assignment subtypes of `AssignOp` (§3). -/
inductive AssignToken where
  | AddAssign | SubtractAssign | MultiplyAssign | DivideAssign | ModuloAssign
  | LeftBitshiftAssign | RightBitshiftAssign | UnsignedRightBitshiftAssign
  | AndAssign | OrAssign | XorAssign
deriving DecidableEq

/-- Modelled from the spec: the token kinds of §3 — structural singles,
trivia, identifiers and reserved words, literals, comments, and operators. -/
inductive TokenType where
  | ParenOpen | ParenClose | BraceOpen | BraceClose | BracketOpen | BracketClose
  | Semicolon | Comma | Period
  | Whitespace | Linebreak
  | Identifier
  | LiteralNumber | LiteralString | LiteralTemplate | LiteralRegEx
  | InlineComment | MultilineComment
  | BinOp (op : BinToken)
  | AssignOp (op : AssignToken)
  | Increment | Decrement
  | LogicalNot | BitwiseNot | QuestionMark | Colon
  | Let | Function | Return | Var | Const | If | Else | For | While | Do
  | Break | Continue | New | Delete | Typeof | Instanceof | In | Void | This
  | Null | True | False | Switch | Case | Default | Throw | Try | Catch
  | Finally | Debugger | With | Class

/-- Constructor code of a `BinToken`, for a shallow decidable equality. -/
def binCode : BinToken → Nat
  | .Assign => 0
  | .Equality => 1
  | .StrictEquality => 2
  | .Inequality => 3
  | .StrictInequality => 4
  | .Add => 5
  | .Subtract => 6
  | .Multiply => 7
  | .Divide => 8
  | .Modulo => 9
  | .LessThan => 10
  | .GreaterThan => 11
  | .LessThanOrEqual => 12
  | .GreaterThanOrEqual => 13
  | .LeftBitshift => 14
  | .RightBitshift => 15
  | .UnsignedRightBitshift => 16
  | .BitwiseAnd => 17
  | .BitwiseOr => 18
  | .BitwiseXor => 19
  | .LogicalAnd => 20
  | .LogicalOr => 21

/-- Inverse of `binCode` on its range. -/
def binOfCode (n : Nat) : BinToken :=
  match n with
  | 0 => .Assign
  | 1 => .Equality
  | 2 => .StrictEquality
  | 3 => .Inequality
  | 4 => .StrictInequality
  | 5 => .Add
  | 6 => .Subtract
  | 7 => .Multiply
  | 8 => .Divide
  | 9 => .Modulo
  | 10 => .LessThan
  | 11 => .GreaterThan
  | 12 => .LessThanOrEqual
  | 13 => .GreaterThanOrEqual
  | 14 => .LeftBitshift
  | 15 => .RightBitshift
  | 16 => .UnsignedRightBitshift
  | 17 => .BitwiseAnd
  | 18 => .BitwiseOr
  | 19 => .BitwiseXor
  | 20 => .LogicalAnd
  | 21 => .LogicalOr
  | _ => .LogicalOr

/-- Constructor code of an `AssignToken`, for a shallow decidable equality. -/
def assignCode : AssignToken → Nat
  | .AddAssign => 0
  | .SubtractAssign => 1
  | .MultiplyAssign => 2
  | .DivideAssign => 3
  | .ModuloAssign => 4
  | .LeftBitshiftAssign => 5
  | .RightBitshiftAssign => 6
  | .UnsignedRightBitshiftAssign => 7
  | .AndAssign => 8
  | .OrAssign => 9
  | .XorAssign => 10

/-- Inverse of `assignCode` on its range. -/
def assignOfCode (n : Nat) : AssignToken :=
  match n with
  | 0 => .AddAssign
  | 1 => .SubtractAssign
  | 2 => .MultiplyAssign
  | 3 => .DivideAssign
  | 4 => .ModuloAssign
  | 5 => .LeftBitshiftAssign
  | 6 => .RightBitshiftAssign
  | 7 => .UnsignedRightBitshiftAssign
  | 8 => .AndAssign
  | 9 => .OrAssign
  | 10 => .XorAssign
  | _ => .XorAssign

/-- Constructor code of a `TokenType`: argument-free kinds get small codes,
operator kinds embed their subtype's code. -/
def ttCode : TokenType → Nat
  | .ParenOpen => 0
  | .ParenClose => 1
  | .BraceOpen => 2
  | .BraceClose => 3
  | .BracketOpen => 4
  | .BracketClose => 5
  | .Semicolon => 6
  | .Comma => 7
  | .Period => 8
  | .Whitespace => 9
  | .Linebreak => 10
  | .Identifier => 11
  | .LiteralNumber => 12
  | .LiteralString => 13
  | .LiteralTemplate => 14
  | .LiteralRegEx => 15
  | .InlineComment => 16
  | .MultilineComment => 17
  | .Increment => 18
  | .Decrement => 19
  | .LogicalNot => 20
  | .BitwiseNot => 21
  | .QuestionMark => 22
  | .Colon => 23
  | .Let => 24
  | .Function => 25
  | .Return => 26
  | .Var => 27
  | .Const => 28
  | .If => 29
  | .Else => 30
  | .For => 31
  | .While => 32
  | .Do => 33
  | .Break => 34
  | .Continue => 35
  | .New => 36
  | .Delete => 37
  | .Typeof => 38
  | .Instanceof => 39
  | .In => 40
  | .Void => 41
  | .This => 42
  | .Null => 43
  | .True => 44
  | .False => 45
  | .Switch => 46
  | .Case => 47
  | .Default => 48
  | .Throw => 49
  | .Try => 50
  | .Catch => 51
  | .Finally => 52
  | .Debugger => 53
  | .With => 54
  | .Class => 55
  | .BinOp op => 1000 + binCode op
  | .AssignOp op => 2000 + assignCode op

/-- Inverse of `ttCode` on its range. -/
def ttOfCode (n : Nat) : TokenType :=
  if 2000 ≤ n then .AssignOp (assignOfCode (n - 2000))
  else if 1000 ≤ n then .BinOp (binOfCode (n - 1000))
  else match n with
  | 0 => .ParenOpen
  | 1 => .ParenClose
  | 2 => .BraceOpen
  | 3 => .BraceClose
  | 4 => .BracketOpen
  | 5 => .BracketClose
  | 6 => .Semicolon
  | 7 => .Comma
  | 8 => .Period
  | 9 => .Whitespace
  | 10 => .Linebreak
  | 11 => .Identifier
  | 12 => .LiteralNumber
  | 13 => .LiteralString
  | 14 => .LiteralTemplate
  | 15 => .LiteralRegEx
  | 16 => .InlineComment
  | 17 => .MultilineComment
  | 18 => .Increment
  | 19 => .Decrement
  | 20 => .LogicalNot
  | 21 => .BitwiseNot
  | 22 => .QuestionMark
  | 23 => .Colon
  | 24 => .Let
  | 25 => .Function
  | 26 => .Return
  | 27 => .Var
  | 28 => .Const
  | 29 => .If
  | 30 => .Else
  | 31 => .For
  | 32 => .While
  | 33 => .Do
  | 34 => .Break
  | 35 => .Continue
  | 36 => .New
  | 37 => .Delete
  | 38 => .Typeof
  | 39 => .Instanceof
  | 40 => .In
  | 41 => .Void
  | 42 => .This
  | 43 => .Null
  | 44 => .True
  | 45 => .False
  | 46 => .Switch
  | 47 => .Case
  | 48 => .Default
  | 49 => .Throw
  | 50 => .Try
  | 51 => .Catch
  | 52 => .Finally
  | 53 => .Debugger
  | 54 => .With
  | 55 => .Class
  | _ => .Identifier

lemma ttOfCode_ttCode : ∀ t : TokenType, ttOfCode (ttCode t) = t := by
  intro t
  cases t
  case BinOp op => cases op <;> rfl
  case AssignOp op => cases op <;> rfl
  all_goals rfl

instance : DecidableEq TokenType := fun a b =>
  if h : ttCode a = ttCode b then
    .isTrue (by rw [← ttOfCode_ttCode a, ← ttOfCode_ttCode b, h])
  else .isFalse (fun he => h (by rw [he]))

/-- Modelled from the spec: the error taxonomy of §7 — fatal unterminated
constructs, recoverable regex-flag and numeric-tail errors, plus a fatal
catch-all for a character no scanner accepts. -/
inductive LexError where
  | UnterminatedComment | UnterminatedString | UnterminatedTemplate
  | UnterminatedRegex | InvalidRegexFlag | MalformedNumber | UnexpectedChar
deriving DecidableEq

/-- Modelled from the spec: a token is a kind plus a half-open span (§3). -/
structure Token where
  tokenType : TokenType
  start : Nat
  stop : Nat
deriving DecidableEq

/-- Modelled from the spec: one stream item, an optional token paired with an
optional error (§4.8, §6). -/
structure Item where
  token : Option Token
  error : Option LexError
deriving DecidableEq

/-- Modelled from the spec: horizontal whitespace characters (§3, §4.2). -/
def isWhitespace (c : Char) : Bool :=
  c == ' ' || c == '\t' || c == '\u000B' || c == '\u000C' || c == '\u00A0' || c == '\uFEFF'

/-- Modelled from the spec: line terminator characters (§3, §4.2). -/
def isLineTerm (c : Char) : Bool :=
  c == '\n' || c == '\r' || c == '\u2028' || c == '\u2029'

/-- Modelled from the spec: identifier-start characters (§2.2). -/
def identStart (c : Char) : Bool :=
  c.isAlpha || c == '_' || c == '$'

/-- Modelled from the spec: identifier-continue characters (§2.2). -/
def identContinue (c : Char) : Bool :=
  c.isAlphanum || c == '_' || c == '$'

/-- Modelled from the spec: reserved-word table lookup over a full identifier
run (§3); non-matches stay `Identifier`. -/
def keywordKind (s : List Char) : Option TokenType :=
  if s = "let".toList then some .Let
  else if s = "function".toList then some .Function
  else if s = "return".toList then some .Return
  else if s = "var".toList then some .Var
  else if s = "const".toList then some .Const
  else if s = "if".toList then some .If
  else if s = "else".toList then some .Else
  else if s = "for".toList then some .For
  else if s = "while".toList then some .While
  else if s = "do".toList then some .Do
  else if s = "break".toList then some .Break
  else if s = "continue".toList then some .Continue
  else if s = "new".toList then some .New
  else if s = "delete".toList then some .Delete
  else if s = "typeof".toList then some .Typeof
  else if s = "instanceof".toList then some .Instanceof
  else if s = "in".toList then some .In
  else if s = "void".toList then some .Void
  else if s = "this".toList then some .This
  else if s = "null".toList then some .Null
  else if s = "true".toList then some .True
  else if s = "false".toList then some .False
  else if s = "switch".toList then some .Switch
  else if s = "case".toList then some .Case
  else if s = "default".toList then some .Default
  else if s = "throw".toList then some .Throw
  else if s = "try".toList then some .Try
  else if s = "catch".toList then some .Catch
  else if s = "finally".toList then some .Finally
  else if s = "debugger".toList then some .Debugger
  else if s = "with".toList then some .With
  else if s = "class".toList then some .Class
  else none

/-- Modelled from the spec: which token kinds can terminate an expression —
identifiers, literals, postfix `++`/`--`, and closing brackets (§4.4). -/
def canEndExpr (t : TokenType) : Bool :=
  match t with
  | .Identifier | .LiteralNumber | .LiteralString | .LiteralTemplate
  | .LiteralRegEx | .Increment | .Decrement
  | .ParenClose | .BracketClose | .BraceClose => true
  | _ => false

/-- The context tracker's read interface: at start of input no significant
token has been seen, so `/` starts a regex (§4.4). -/
def canEndExprOpt (ctx : Option TokenType) : Bool :=
  match ctx with
  | some t => canEndExpr t
  | none => false

/-- Modelled from the spec: trivia kinds excluded from the context tracker's
last-significant-token state (§4.7). -/
def isTrivia (t : TokenType) : Bool :=
  match t with
  | .Whitespace | .Linebreak | .InlineComment | .MultilineComment => true
  | _ => false

/-- `isPre xs ys` holds when `xs` is a leading segment of `ys` (used by the
operator longest-match tables). -/
def isPre : List Char → List Char → Bool
  | [], _ => true
  | _ :: _, [] => false
  | a :: as, b :: bs => a == b && isPre as bs

/-- Modelled from the spec: the per-leading-character longest-match operator
tables of §4.3/§9, listing each family's forms by their characters *beyond*
the leading one, in descending length order, ending with the one-character
form. -/
def opTable (c : Char) : List (List Char × TokenType) :=
  if c == '=' then
    [(['=', '='], .BinOp .StrictEquality), (['='], .BinOp .Equality), ([], .BinOp .Assign)]
  else if c == '<' then
    [(['<', '='], .AssignOp .LeftBitshiftAssign), (['<'], .BinOp .LeftBitshift),
     (['='], .BinOp .LessThanOrEqual), ([], .BinOp .LessThan)]
  else if c == '>' then
    [(['>', '>', '='], .AssignOp .UnsignedRightBitshiftAssign),
     (['>', '>'], .BinOp .UnsignedRightBitshift), (['>', '='], .AssignOp .RightBitshiftAssign),
     (['>'], .BinOp .RightBitshift), (['='], .BinOp .GreaterThanOrEqual), ([], .BinOp .GreaterThan)]
  else if c == '+' then
    [(['+'], .Increment), (['='], .AssignOp .AddAssign), ([], .BinOp .Add)]
  else if c == '-' then
    [(['-'], .Decrement), (['='], .AssignOp .SubtractAssign), ([], .BinOp .Subtract)]
  else if c == '/' then
    [(['='], .AssignOp .DivideAssign), ([], .BinOp .Divide)]
  else if c == '*' then
    [(['='], .AssignOp .MultiplyAssign), ([], .BinOp .Multiply)]
  else if c == '%' then
    [(['='], .AssignOp .ModuloAssign), ([], .BinOp .Modulo)]
  else if c == '&' then
    [(['&'], .BinOp .LogicalAnd), (['='], .AssignOp .AndAssign), ([], .BinOp .BitwiseAnd)]
  else if c == '|' then
    [(['|'], .BinOp .LogicalOr), (['='], .AssignOp .OrAssign), ([], .BinOp .BitwiseOr)]
  else if c == '^' then
    [(['='], .AssignOp .XorAssign), ([], .BinOp .BitwiseXor)]
  else if c == '!' then
    [(['=', '='], .BinOp .StrictInequality), (['='], .BinOp .Inequality), ([], .LogicalNot)]
  else if c == '~' then [([], .BitwiseNot)]
  else if c == '?' then [([], .QuestionMark)]
  else if c == ':' then [([], .Colon)]
  else []

/-- One step's outcome, the spec's three-case tagged result (§9): token only,
token with recoverable error, or fatal error with no token.  `extra` counts
the characters consumed beyond the dispatch character. -/
inductive ScanOut where
  | tok (tt : TokenType) (extra : Nat)
  | tokErr (tt : TokenType) (err : LexError) (extra : Nat)
  | fatal (err : LexError)
deriving DecidableEq

/-- Modelled from the spec: the operator disambiguator — commit to the first
(hence longest) table form matching the lookahead (§4.3). -/
def scanOp (c : Char) (rest : List Char) : ScanOut :=
  match (opTable c).find? (fun p => isPre p.1 rest) with
  | some p => .tok p.2 p.1.length
  | none => .fatal .UnexpectedChar

/-- Modelled from the spec: characters consumed by a string/template literal
body after the opening quote, up to and including the closing quote `q`;
`none` when a line terminator or end of input intervenes (§4.6). -/
def strEnd (q : Char) : List Char → Option Nat
  | [] => none
  | c :: cs =>
    if c == q then some 1
    else if isLineTerm c then none
    else if c == '\\' then
      match cs with
      | [] => none
      | _ :: cs2 => (strEnd q cs2).map (· + 2)
    else (strEnd q cs).map (· + 1)

/-- Modelled from the spec: characters consumed after `/*` up to and
including the closing `*/`; `none` at end of input (§4.4 case 2). -/
def commentEnd : List Char → Option Nat
  | [] => none
  | '*' :: '/' :: _ => some 2
  | _ :: cs => (commentEnd cs).map (· + 1)

/-- Modelled from the spec: characters consumed by a regex body after the
opening `/`, up to and including the closing unescaped, unbracketed `/`;
tracks `[...]` character-class state so `/` inside a class does not
terminate; `none` on a line terminator or end of input (§4.4 case 3). -/
def regexEnd : Bool → List Char → Option Nat
  | _, [] => none
  | inClass, c :: cs =>
    if isLineTerm c then none
    else if c == '\\' then
      match cs with
      | [] => none
      | _ :: cs2 => (regexEnd inClass cs2).map (· + 2)
    else if inClass then (regexEnd (c != ']') cs).map (· + 1)
    else if c == '[' then (regexEnd true cs).map (· + 1)
    else if c == '/' then some 1
    else (regexEnd false cs).map (· + 1)

/-- Modelled from the spec: validation of a regex flag run — every flag in
the allowed set, no duplicates (§4.4). -/
def validFlags : List Char → Bool
  | [] => true
  | c :: cs =>
    (c == 'g' || c == 'i' || c == 'm' || c == 's' || c == 'u' || c == 'y')
      && !(cs.contains c) && validFlags cs

/-- Modelled from the spec: an optional exponent suffix — `e`/`E`, optional
sign, digits; missing digits are a recoverable malformed-number error (§4.5). -/
def expExtra : List Char → Nat × Option LexError
  | [] => (0, none)
  | e :: tl =>
    if e == 'e' || e == 'E' then
      match tl with
      | [] => (1, some .MalformedNumber)
      | s :: tl2 =>
        if s == '+' || s == '-' then
          let ds := tl2.takeWhile Char.isDigit
          if ds.isEmpty then (2, some .MalformedNumber) else (2 + ds.length, none)
        else
          let ds := tl.takeWhile Char.isDigit
          if ds.isEmpty then (1, some .MalformedNumber) else (1 + ds.length, none)
    else (0, none)

/-- Modelled from the spec: the numeric-literal scanner (§4.5).  `dotFirst`
records whether the dispatch character was the leading `.`; `rest` is the
lookahead after the dispatch character. -/
def scanNumber (dotFirst : Bool) (rest : List Char) : Nat × Option LexError :=
  if dotFirst then
    let frac := rest.takeWhile Char.isDigit
    let p := expExtra (rest.drop frac.length)
    (frac.length + p.1, p.2)
  else
    let ip := rest.takeWhile Char.isDigit
    match rest.drop ip.length with
    | '.' :: r2 =>
      let frac := r2.takeWhile Char.isDigit
      let p := expExtra (r2.drop frac.length)
      (ip.length + 1 + frac.length + p.1, p.2)
    | after =>
      let p := expExtra after
      (ip.length + p.1, p.2)

/-- Wrap a numeric-scanner result as a step outcome. -/
def numOut (p : Nat × Option LexError) : ScanOut :=
  match p.2 with
  | none => .tok .LiteralNumber p.1
  | some err => .tokErr .LiteralNumber err p.1

/-- Wrap a string-scanner result as a step outcome. -/
def strOut (tt : TokenType) (r : Option Nat) (err : LexError) : ScanOut :=
  match r with
  | some n => .tok tt n
  | none => .fatal err

/-- Modelled from the spec: the driver's single-step dispatch (§4.8) — given
the context tracker's last significant token, the character under the
cursor and the remaining lookahead, pick the scanner and run it. -/
def scanOne (ctx : Option TokenType) (c : Char) (rest : List Char) : ScanOut :=
  if isWhitespace c then .tok .Whitespace 0
  else if c == '\n' || c == '\u2028' || c == '\u2029' then .tok .Linebreak 0
  else if c == '\r' then
    (if rest.head? == some '\n' then .tok .Linebreak 1 else .tok .Linebreak 0)
  else if identStart c then
    .tok ((keywordKind (c :: rest.takeWhile identContinue)).getD .Identifier)
      (rest.takeWhile identContinue).length
  else if c.isDigit then numOut (scanNumber false rest)
  else if c == '.' then
    (if (rest.head?.map Char.isDigit).getD false then numOut (scanNumber true rest)
     else .tok .Period 0)
  else if c == '"' || c == '\'' then strOut .LiteralString (strEnd c rest) .UnterminatedString
  else if c == '`' then strOut .LiteralTemplate (strEnd c rest) .UnterminatedTemplate
  else if c == '/' then
    if rest.head? == some '/' then
      .tok .InlineComment (1 + ((rest.drop 1).takeWhile (fun x => !(isLineTerm x))).length)
    else if rest.head? == some '*' then
      (match commentEnd (rest.drop 1) with
       | some n => .tok .MultilineComment (1 + n)
       | none => .fatal .UnterminatedComment)
    else if canEndExprOpt ctx then scanOp c rest
    else
      (match regexEnd false rest with
       | some n =>
         let flags := (rest.drop n).takeWhile identContinue
         if validFlags flags then .tok .LiteralRegEx (n + flags.length)
         else .tokErr .LiteralRegEx .InvalidRegexFlag (n + flags.length)
       | none => .fatal .UnterminatedRegex)
  else if c == '(' then .tok .ParenOpen 0
  else if c == ')' then .tok .ParenClose 0
  else if c == '\x7b' then .tok .BraceOpen 0
  else if c == '\x7d' then .tok .BraceClose 0
  else if c == '[' then .tok .BracketOpen 0
  else if c == ']' then .tok .BracketClose 0
  else if c == ';' then .tok .Semicolon 0
  else if c == ',' then .tok .Comma 0
  else scanOp c rest

/-- A step outcome is a division-operator token (`/` or `/=`). -/
def producesDivision : ScanOut → Bool
  | .tok (.BinOp .Divide) _ => true
  | .tok (.AssignOp .DivideAssign) _ => true
  | _ => false

/-- A step outcome is a regex-literal attempt: a `LiteralRegEx` token (with
or without a recoverable flag error) or a fatal unterminated-regex error. -/
def producesRegex : ScanOut → Bool
  | .tok .LiteralRegEx _ => true
  | .tokErr .LiteralRegEx _ _ => true
  | .fatal .UnterminatedRegex => true
  | _ => false

/-- A step outcome obeys the whitespace-width discipline: a `Whitespace`
token consumes no lookahead (its width is exactly one character), and a
`Whitespace` token never carries an error. -/
def wsOk : ScanOut → Bool
  | .tok tt extra => tt != .Whitespace || extra == 0
  | .tokErr tt _ _ => tt != .Whitespace
  | .fatal _ => true

/-- The context tracker's update: significant tokens overwrite the state,
trivia leaves it unchanged (§4.7). -/
def nextCtx (ctx : Option TokenType) (tt : TokenType) : Option TokenType :=
  if isTrivia tt then ctx else some tt

/-- Modelled from the spec: the driver loop (§4.8).  `fuel` is a structural
bound on the number of steps; each step consumes at least one character, so
`length + 1` fuel always suffices.  A fatal outcome yields its error-only
item and produces nothing afterwards. -/
def lexGo : Nat → Option TokenType → Nat → List Char → List Item
  | 0, _, _, _ => []
  | _ + 1, _, _, [] => []
  | fuel + 1, ctx, pos, c :: rest =>
    match scanOne ctx c rest with
    | .tok tt extra =>
      ⟨some ⟨tt, pos, pos + extra + 1⟩, none⟩ ::
        lexGo fuel (nextCtx ctx tt) (pos + extra + 1) (rest.drop extra)
    | .tokErr tt err extra =>
      ⟨some ⟨tt, pos, pos + extra + 1⟩, some err⟩ ::
        lexGo fuel (nextCtx ctx tt) (pos + extra + 1) (rest.drop extra)
    | .fatal err => [⟨none, some err⟩]

/-- Modelled from the spec: one full pass over one source buffer (§6): the
lexer starts with no significant-token context at offset 0. -/
def lex (src : List Char) : List Item :=
  lexGo (src.length + 1) none 0 src

/-- The tokens carried by a stream of items, in emission order. -/
def tokensOf (items : List Item) : List Token :=
  items.filterMap Item.token

/-- The token kinds a source lexes to, in order. -/
def lexTT (src : List Char) : List TokenType :=
  (tokensOf (lex src)).map Token.tokenType

/-- The significant (non-trivia) token kinds a source lexes to, in order. -/
def lexSig (src : List Char) : List TokenType :=
  (lexTT src).filter (fun t => !(isTrivia t))

/-- Spans tile the character list `cs` contiguously starting at `pos`:
each token starts where the previous stopped, has positive width, and the
final token stops exactly at the end of `cs`. -/
def tiles : Nat → List Char → List Token → Bool
  | _, cs, [] => cs.isEmpty
  | pos, cs, t :: ts =>
    t.start == pos && pos.blt t.stop && tiles t.stop (cs.drop (t.stop - pos)) ts

/-- The source slice named by a token's span. -/
def sliceOf (src : List Char) (t : Token) : List Char :=
  (src.drop t.start).take (t.stop - t.start)

/-- C5: lexing a regex literal whose flag run contains an invalid flag
(`"/ga[gg]/gh"`) yields an `InvalidRegexFlag` error attached to an item that
still carries the `LiteralRegEx` token for the literal's whole span; the
error is recoverable, so on `"/a/h;"` scanning continues past the literal
and the following semicolon is still tokenized. -/
theorem claim_C5_regex_flags :
    lex "/ga[gg]/gh".toList =
      [⟨some ⟨.LiteralRegEx, 0, 10⟩, some .InvalidRegexFlag⟩] ∧
    lex "/a/h;".toList =
      [⟨some ⟨.LiteralRegEx, 0, 4⟩, some .InvalidRegexFlag⟩,
       ⟨some ⟨.Semicolon, 4, 5⟩, none⟩] := by
  decide

/-- C6: `\n`, a lone `\r`, `U+2028` and `U+2029` each lex as a one-character
`Linebreak` token, `\r\n` lexes as a single two-character `Linebreak` token,
and `"\n\r\r\n\u2028\u2029"` lexes as exactly 5 `Linebreak` tokens with
contiguous spans `[0,1) [1,2) [2,4) [4,5) [5,6)`. -/
theorem claim_C6_linebreaks :
    lex "\n\r\r\n\u2028\u2029".toList =
      [⟨some ⟨.Linebreak, 0, 1⟩, none⟩, ⟨some ⟨.Linebreak, 1, 2⟩, none⟩,
       ⟨some ⟨.Linebreak, 2, 4⟩, none⟩, ⟨some ⟨.Linebreak, 4, 5⟩, none⟩,
       ⟨some ⟨.Linebreak, 5, 6⟩, none⟩] ∧
    lex "\n".toList = [⟨some ⟨.Linebreak, 0, 1⟩, none⟩] ∧
    lex "\r".toList = [⟨some ⟨.Linebreak, 0, 1⟩, none⟩] ∧
    lex "\r\n".toList = [⟨some ⟨.Linebreak, 0, 2⟩, none⟩] ∧
    lex "\u2028".toList = [⟨some ⟨.Linebreak, 0, 1⟩, none⟩] ∧
    lex "\u2029".toList = [⟨some ⟨.Linebreak, 0, 1⟩, none⟩] := by
  decide

/-- C9: a numeric literal may begin directly with `.` and may carry an
`e`/`E` exponent with optional sign: `.642`, `.643e5`, `.6433e+6`,
`.653e-77`, `.6E-6` each lex as a single `LiteralNumber` token covering the
entire lexeme, and the space-separated concatenation of all five lexes as
exactly five `LiteralNumber` tokens. -/
theorem claim_C9_leading_dot_numbers :
    lex ".642".toList = [⟨some ⟨.LiteralNumber, 0, 4⟩, none⟩] ∧
    lex ".643e5".toList = [⟨some ⟨.LiteralNumber, 0, 6⟩, none⟩] ∧
    lex ".6433e+6".toList = [⟨some ⟨.LiteralNumber, 0, 8⟩, none⟩] ∧
    lex ".653e-77".toList = [⟨some ⟨.LiteralNumber, 0, 8⟩, none⟩] ∧
    lex ".6E-6".toList = [⟨some ⟨.LiteralNumber, 0, 5⟩, none⟩] ∧
    lexSig ".642 .643e5 .6433e+6 .653e-77 .6E-6".toList =
      [.LiteralNumber, .LiteralNumber, .LiteralNumber, .LiteralNumber,
       .LiteralNumber] := by
  decide

/-- C1 counterexample: on the input `` "`" `` (an unterminated template
literal) the lexer halts fatally with no token, so concatenating the source
slices named by the produced token spans yields the empty list, not the
original input: the claim's universal losslessness statement fails. -/
theorem claim_C1_counterexample :
    ((tokensOf (lex "`".toList)).map (sliceOf "`".toList)).flatten ≠
      "`".toList := by
  decide

lemma lexGo_filled (fuel : Nat) : ∀ ctx pos cs it, it ∈ lexGo fuel ctx pos cs →
    it.token.isSome = true ∨ it.error.isSome = true := by
  induction fuel with
  | zero =>
    intro ctx pos cs it h
    simp [lexGo] at h
  | succ n ih =>
    intro ctx pos cs it h
    match cs with
    | [] => simp [lexGo] at h
    | c :: rest =>
      rw [lexGo] at h
      cases hs : scanOne ctx c rest with
      | tok tt extra =>
        rw [hs] at h
        rcases List.mem_cons.mp h with h1 | h2
        · subst h1; left; rfl
        · exact ih _ _ _ _ h2
      | tokErr tt err extra =>
        rw [hs] at h
        rcases List.mem_cons.mp h with h1 | h2
        · subst h1; left; rfl
        · exact ih _ _ _ _ h2
      | fatal err =>
        rw [hs] at h
        rcases List.mem_cons.mp h with h1 | h2
        · subst h1; right; rfl
        · simp at h2

lemma lexGo_fatal_last (fuel : Nat) : ∀ ctx pos cs i it,
    (lexGo fuel ctx pos cs)[i]? = some it → it.token = none →
    it.error.isSome = true ∧ i + 1 = (lexGo fuel ctx pos cs).length := by
  induction fuel with
  | zero =>
    intro ctx pos cs i it h
    simp [lexGo] at h
  | succ n ih =>
    intro ctx pos cs i it h htok
    match cs with
    | [] => simp [lexGo] at h
    | c :: rest =>
      rw [lexGo] at h ⊢
      cases hs : scanOne ctx c rest with
      | tok tt extra =>
        rw [hs] at h
        dsimp only at h
        match i with
        | 0 =>
          rw [List.getElem?_cons_zero] at h
          apply absurd htok
          simp [← Option.some_inj.mp h]
        | j + 1 =>
          rw [List.getElem?_cons_succ] at h
          have := ih _ _ _ j it h htok
          simpa using this
      | tokErr tt err extra =>
        rw [hs] at h
        dsimp only at h
        match i with
        | 0 =>
          rw [List.getElem?_cons_zero] at h
          apply absurd htok
          simp [← Option.some_inj.mp h]
        | j + 1 =>
          rw [List.getElem?_cons_succ] at h
          have := ih _ _ _ j it h htok
          simpa using this
      | fatal err =>
        rw [hs] at h
        dsimp only at h
        match i with
        | 0 =>
          rw [List.getElem?_cons_zero] at h
          rw [← Option.some_inj.mp h]
          exact ⟨rfl, rfl⟩
        | j + 1 => simp at h

/-- C10: every item the lexer yields has at least one slot filled. -/
theorem claim_C10_no_empty_item (src : List Char) (it : Item) (h : it ∈ lex src) :
    it.token.isSome = true ∨ it.error.isSome = true :=
  lexGo_filled _ _ _ _ _ h

/-- C10 witness at a concrete input. -/
theorem claim_C10_witness :
    (⟨some ⟨.Identifier, 0, 1⟩, none⟩ : Item).token.isSome = true ∨
      (⟨some ⟨.Identifier, 0, 1⟩, none⟩ : Item).error.isSome = true :=
  claim_C10_no_empty_item "a".toList _ (by decide)

/-- C4: reaching end of input inside a multiline comment, a string or
template literal, or a regex literal yields an item with the error slot set
and the token slot empty, and any token-less item is the final item of the
pass — nothing, in particular no token-carrying item, follows it. -/
theorem claim_C4_fatal_halts :
    lex "/* abc".toList = [⟨none, some .UnterminatedComment⟩] ∧
    lex "`abc".toList = [⟨none, some .UnterminatedTemplate⟩] ∧
    lex "\"abc".toList = [⟨none, some .UnterminatedString⟩] ∧
    lex "/abc".toList = [⟨none, some .UnterminatedRegex⟩] ∧
    ∀ src i it, (lex src)[i]? = some it → it.token = none →
      it.error.isSome = true ∧ i + 1 = (lex src).length := by
  refine ⟨by decide, by decide, by decide, by decide, ?_⟩
  intro src i it h htok
  exact lexGo_fatal_last _ _ _ _ _ _ h htok

/-- C4 witness: the unterminated-comment item is error-only and final. -/
theorem claim_C4_witness :
    (⟨none, some .UnterminatedComment⟩ : Item).error.isSome = true ∧
      0 + 1 = (lex "/* abc".toList).length :=
  claim_C4_fatal_halts.2.2.2.2 "/* abc".toList 0 _ (by decide) (by decide)

lemma tiles_concat (src : List Char) : ∀ (toks : List Token) (pos : Nat),
    tiles pos (src.drop pos) toks = true →
    (toks.map (sliceOf src)).flatten = src.drop pos := by
  intro toks
  induction toks with
  | nil =>
    intro pos h
    simp [tiles] at h
    simp [h]
  | cons t ts ih =>
    intro pos h
    simp only [tiles, Bool.and_eq_true, beq_iff_eq, Nat.blt_eq] at h
    obtain ⟨⟨h1, h2⟩, h3⟩ := h
    have hdd : (src.drop pos).drop (t.stop - pos) = src.drop t.stop := by
      rw [List.drop_drop]
      congr 1
      omega
    rw [hdd] at h3
    have hrest := ih t.stop h3
    simp only [List.map_cons, List.flatten_cons, hrest, sliceOf, h1]
    rw [← hdd]
    exact List.take_append_drop _ _

lemma lexGo_tiles (fuel : Nat) : ∀ ctx pos cs, cs.length < fuel →
    (∀ it ∈ lexGo fuel ctx pos cs, it.token.isSome = true) →
    tiles pos cs (tokensOf (lexGo fuel ctx pos cs)) = true := by
  induction fuel with
  | zero =>
    intro ctx pos cs hlen hall
    omega
  | succ n ih =>
    intro ctx pos cs hlen hall
    match cs with
    | [] => simp [lexGo, tokensOf, tiles]
    | c :: rest =>
      rw [lexGo] at hall ⊢
      cases hs : scanOne ctx c rest with
      | tok tt extra =>
        rw [hs] at hall
        dsimp only at hall ⊢
        simp only [tokensOf, List.filterMap_cons] at *
        simp only [tiles, Bool.and_eq_true, beq_iff_eq, Nat.blt_eq]
        refine ⟨⟨by trivial, by omega⟩, ?_⟩
        have harith : pos + extra + 1 - pos = extra + 1 := by omega
        rw [harith]
        have hdrop : (c :: rest).drop (extra + 1) = rest.drop extra := by
          simp [List.drop_succ_cons]
        rw [hdrop]
        apply ih
        · have := List.length_drop extra rest
          simp at hlen
          omega
        · intro it hit
          exact hall it (List.mem_cons_of_mem _ hit)
      | tokErr tt err extra =>
        rw [hs] at hall
        dsimp only at hall ⊢
        simp only [tokensOf, List.filterMap_cons] at *
        simp only [tiles, Bool.and_eq_true, beq_iff_eq, Nat.blt_eq]
        refine ⟨⟨by trivial, by omega⟩, ?_⟩
        have harith : pos + extra + 1 - pos = extra + 1 := by omega
        rw [harith]
        have hdrop : (c :: rest).drop (extra + 1) = rest.drop extra := by
          simp [List.drop_succ_cons]
        rw [hdrop]
        apply ih
        · have := List.length_drop extra rest
          simp at hlen
          omega
        · intro it hit
          exact hall it (List.mem_cons_of_mem _ hit)
      | fatal err =>
        rw [hs] at hall
        dsimp only at hall
        have := hall ⟨none, some err⟩ (by simp)
        simp at this

/-- C1 (amended): for every source text on which the pass yields only
token-carrying items (no fatal error), the produced tokens have strictly
increasing, non-overlapping, contiguous half-open spans starting at offset 0
and ending at the end of the input, and concatenating the source slices
named by each successive span reproduces the input exactly; lexing the
empty string yields zero tokens. -/
theorem claim_C1_lossless_amended (src : List Char)
    (h : ∀ it ∈ lex src, it.token.isSome = true) :
    tiles 0 src (tokensOf (lex src)) = true ∧
    ((tokensOf (lex src)).map (sliceOf src)).flatten = src ∧
    lex [] = [] := by
  have ht : tiles 0 src (tokensOf (lex src)) = true := by
    apply lexGo_tiles
    · omega
    · exact h
  refine ⟨ht, ?_, rfl⟩
  have hc := tiles_concat src (tokensOf (lex src)) 0 (by simpa using ht)
  simpa using hc

/-- C1 witness at a concrete input. -/
theorem claim_C1_witness :
    tiles 0 "let a = 6 / 3;".toList (tokensOf (lex "let a = 6 / 3;".toList)) = true ∧
    ((tokensOf (lex "let a = 6 / 3;".toList)).map
        (sliceOf "let a = 6 / 3;".toList)).flatten = "let a = 6 / 3;".toList ∧
    lex [] = [] :=
  claim_C1_lossless_amended "let a = 6 / 3;".toList (by decide)

lemma takeWhile_all {p : Char → Bool} : ∀ (l : List Char), (∀ x ∈ l, p x = true) →
    l.takeWhile p = l := by
  intro l h
  induction l with
  | nil => rfl
  | cons a l ih =>
    rw [List.takeWhile_cons, h a (by simp)]
    simp [ih (fun x hx => h x (List.mem_cons_of_mem _ hx))]

lemma ws_chars (c : Char) (h : isWhitespace c = true) :
    c ∈ [' ', '\t', '\u000B', '\u000C', '\u00A0', '\uFEFF'] := by
  simp only [isWhitespace, Bool.or_eq_true, beq_iff_eq] at h
  simp only [List.mem_cons, List.not_mem_nil, or_false]
  tauto

lemma lb_chars (c : Char) (h : (c == '\n' || c == '\u2028' || c == '\u2029') = true) :
    c ∈ ['\n', '\u2028', '\u2029'] := by
  simp only [Bool.or_eq_true, beq_iff_eq] at h
  simp only [List.mem_cons, List.not_mem_nil, or_false]
  tauto

lemma identStart_not_ws (c : Char) (h : identStart c = true) : isWhitespace c = false := by
  cases hw : isWhitespace c
  · rfl
  · exfalso
    have hm := ws_chars c hw
    fin_cases hm <;> exact absurd h (by decide)

lemma identStart_not_lb (c : Char) (h : identStart c = true) :
    (c == '\n' || c == '\u2028' || c == '\u2029') = false ∧ (c == '\r') = false := by
  constructor
  · cases hw : (c == '\n' || c == '\u2028' || c == '\u2029')
    · rfl
    · exfalso
      have hm := lb_chars c hw
      fin_cases hm <;> exact absurd h (by decide)
  · cases hw : (c == '\r')
    · rfl
    · exfalso
      rw [beq_iff_eq] at hw
      subst hw
      exact absurd h (by decide)

lemma scanOne_ident (ctx : Option TokenType) (c : Char) (rest : List Char)
    (h : identStart c = true) :
    scanOne ctx c rest =
      .tok ((keywordKind (c :: rest.takeWhile identContinue)).getD .Identifier)
        (rest.takeWhile identContinue).length := by
  obtain ⟨h1, h2⟩ := identStart_not_lb c h
  rw [scanOne.eq_def, if_neg, if_neg, if_neg, if_pos]
  · exact h
  · simp [h2]
  · simp [h1]
  · simp [identStart_not_ws c h]

/-- C8: a maximal identifier run exactly equal to a reserved word lexes as
that keyword's kind and any other run lexes as `Identifier` — for any
identifier-shaped character list the whole run is one token whose kind is
the keyword-table lookup; keywords are never recognized from a partial
slice of a longer run (`"letx"` is a single `Identifier`), and in
`"let a = 6 / 3;"` the run `let` lexes as the `Let` keyword while `a` stays
`Identifier`, with `function`/`return` likewise keyword kinds. -/
theorem claim_C8_keywords :
    (∀ c cs, identStart c = true → (∀ x ∈ cs, identContinue x = true) →
      lex (c :: cs) =
        [⟨some ⟨(keywordKind (c :: cs)).getD .Identifier, 0, cs.length + 1⟩, none⟩]) ∧
    lexSig "let a = 6 / 3;".toList =
      [.Let, .Identifier, .BinOp .Assign, .LiteralNumber, .BinOp .Divide,
       .LiteralNumber, .Semicolon] ∧
    lexTT "letx".toList = [.Identifier] ∧
    lexTT "let".toList = [.Let] ∧
    lexTT "function".toList = [.Function] ∧
    lexTT "return".toList = [.Return] := by
  refine ⟨?_, by decide, by decide, by decide, by decide, by decide⟩
  intro c cs h1 h2
  have htw : cs.takeWhile identContinue = cs := takeWhile_all cs h2
  show lexGo (cs.length + 2) none 0 (c :: cs) = _
  rw [lexGo, scanOne_ident none c cs h1, htw]
  dsimp only
  rw [List.drop_length]
  rw [lexGo]
  simp

/-- C8 witness: the general run lemma applied at `"letx"`. -/
theorem claim_C8_witness :
    lex ('l' :: "etx".toList) =
      [⟨some ⟨(keywordKind ('l' :: "etx".toList)).getD .Identifier, 0,
        "etx".toList.length + 1⟩, none⟩] :=
  claim_C8_keywords.1 'l' "etx".toList (by decide) (by decide)

lemma scanOne_slash (ctx : Option TokenType) (rest : List Char)
    (h1 : rest.head? ≠ some '/') (h2 : rest.head? ≠ some '*') :
    scanOne ctx '/' rest =
      (if canEndExprOpt ctx then scanOp '/' rest
       else
         match regexEnd false rest with
         | some n =>
           let flags := (rest.drop n).takeWhile identContinue
           if validFlags flags then .tok .LiteralRegEx (n + flags.length)
           else .tokErr .LiteralRegEx .InvalidRegexFlag (n + flags.length)
         | none => .fatal .UnterminatedRegex) := by
  have e1 : (rest.head? == some '/') = false := by
    simp [h1]
  have e2 : (rest.head? == some '*') = false := by
    simp [h2]
  rw [scanOne.eq_def]
  rw [if_neg (by decide), if_neg (by decide), if_neg (by decide), if_neg (by decide),
    if_neg (by decide), if_neg (by decide), if_neg (by decide), if_neg (by decide),
    if_pos (by decide), if_neg (by simp [e1]), if_neg (by simp [e2])]

/-- C2: on a `/` that does not begin a comment, the lexer emits a division
operator exactly when the last significant token can terminate an
expression, and otherwise attempts a regex literal, in which an unescaped
`/` inside a `[...]` character class does not terminate the literal
(`"/[/]/g"` is one `LiteralRegEx`); concretely `"let a = 6 / 3;"` lexes the
`/` as `BinOp Divide`, standalone `"/a[gg]/gim"` lexes as a single
`LiteralRegEx`, and the `/aaa/g` after `return` in
`"function a() { return /aaa/g }"` lexes as a single `LiteralRegEx`. -/
theorem claim_C2_slash_disambiguation :
    lexSig "let a = 6 / 3;".toList =
      [.Let, .Identifier, .BinOp .Assign, .LiteralNumber, .BinOp .Divide,
       .LiteralNumber, .Semicolon] ∧
    lexTT "/a[gg]/gim".toList = [.LiteralRegEx] ∧
    lexSig "function a() \x7b return /aaa/g \x7d".toList =
      [.Function, .Identifier, .ParenOpen, .ParenClose, .BraceOpen, .Return,
       .LiteralRegEx, .BraceClose] ∧
    lexTT "/[/]/g".toList = [.LiteralRegEx] ∧
    ∀ ctx rest, rest.head? ≠ some '/' → rest.head? ≠ some '*' →
      producesDivision (scanOne ctx '/' rest) = canEndExprOpt ctx ∧
      (canEndExprOpt ctx = false → producesRegex (scanOne ctx '/' rest) = true) := by
  refine ⟨by decide, by decide, by decide, by decide, ?_⟩
  intro ctx rest h1 h2
  rw [scanOne_slash ctx rest h1 h2]
  cases hc : canEndExprOpt ctx with
  | false =>
    rw [if_neg (by simp [hc])]
    cases hre : regexEnd false rest with
    | none => simp [producesDivision, producesRegex]
    | some n =>
      dsimp only
      cases hv : validFlags ((rest.drop n).takeWhile identContinue) <;>
        simp [hv, producesDivision, producesRegex]
  | true =>
    rw [if_pos (by simp [hc])]
    refine ⟨?_, by simp⟩
    rw [scanOp]
    have : opTable '/' = [(['='], .AssignOp .DivideAssign), ([], .BinOp .Divide)] := by
      decide
    rw [this]
    cases hp : isPre ['='] rest <;>
      simp [List.find?, hp, isPre, producesDivision]

/-- C2 witness: the dichotomy applied after a `LiteralNumber` (division)
context with lookahead `" 3;"`. -/
theorem claim_C2_witness :
    producesDivision (scanOne (some .LiteralNumber) '/' " 3;".toList) =
      canEndExprOpt (some .LiteralNumber) ∧
    (canEndExprOpt (some .LiteralNumber) = false →
      producesRegex (scanOne (some .LiteralNumber) '/' " 3;".toList) = true) :=
  claim_C2_slash_disambiguation.2.2.2.2 (some .LiteralNumber) " 3;".toList
    (by decide) (by decide)

lemma find_longest {α : Type} (rest : List Char) :
    ∀ (l : List (List Char × α)),
      l.Pairwise (fun a b => b.1.length ≤ a.1.length) →
      ∀ f tt, (f, tt) ∈ l → isPre f rest = true →
      ∃ g ttg, l.find? (fun p => isPre p.1 rest) = some (g, ttg) ∧
        isPre g rest = true ∧ f.length ≤ g.length := by
  intro l
  induction l with
  | nil =>
    intro _ f tt hmem
    simp at hmem
  | cons a l ih =>
    intro hp f tt hmem hpre
    have hp1 := List.pairwise_cons.mp hp
    cases ha : isPre a.1 rest with
    | true =>
      refine ⟨a.1, a.2, ?_, ha, ?_⟩
      · rw [List.find?_cons_of_pos _ (by simpa using ha)]
      · rcases List.mem_cons.mp hmem with h1 | h1
        · rw [show f = a.1 from by rw [← h1]]
        · exact hp1.1 (f, tt) h1
    | false =>
      rcases List.mem_cons.mp hmem with h1 | h1
      · exfalso
        have : f = a.1 := by rw [← h1]
        rw [this] at hpre
        rw [hpre] at ha
        exact Bool.true_eq_false.mp ha
      · rw [List.find?_cons_of_neg _ (by simpa using ha)]
        exact ih hp1.2 f tt h1 hpre

lemma opTable_sorted (c : Char) :
    (opTable c).Pairwise (fun a b => b.1.length ≤ a.1.length) := by
  by_cases h1 : c = '='
  · subst h1; decide
  by_cases h2 : c = '<'
  · subst h2; decide
  by_cases h3 : c = '>'
  · subst h3; decide
  by_cases h4 : c = '+'
  · subst h4; decide
  by_cases h5 : c = '-'
  · subst h5; decide
  by_cases h6 : c = '/'
  · subst h6; decide
  by_cases h7 : c = '*'
  · subst h7; decide
  by_cases h8 : c = '%'
  · subst h8; decide
  by_cases h9 : c = '&'
  · subst h9; decide
  by_cases h10 : c = '|'
  · subst h10; decide
  by_cases h11 : c = '^'
  · subst h11; decide
  by_cases h12 : c = '!'
  · subst h12; decide
  by_cases h13 : c = '~'
  · subst h13; decide
  by_cases h14 : c = '?'
  · subst h14; decide
  by_cases h15 : c = ':'
  · subst h15; decide
  rw [opTable.eq_def]
  simp [beq_iff_eq, h1, h2, h3, h4, h5, h6, h7, h8, h9, h10, h11, h12, h13, h14, h15]

/-- C3: the operator scanner emits at each position the longest operator
form of its family that matches there — any table form that is a leading
segment of the lookahead is no longer than the form actually committed to —
and then restarts fresh at the next unconsumed character; in particular
`"=== ===="` lexes (ignoring whitespace) as
`StrictEquality, StrictEquality, Assign`; `"<<<<==<<="` as
`LeftBitshift, LeftBitshiftAssign, Assign, LeftBitshiftAssign`;
`">>>>==>>="` as
`UnsignedRightBitshift, GreaterThanOrEqual, Assign, RightBitshiftAssign`;
and the same greedy algorithm on the `+`/`-` families gives `"+++"` =
`Increment, Add` and `"---"` = `Decrement, Subtract`. -/
theorem claim_C3_maximal_munch :
    lexSig "=== ====".toList =
      [.BinOp .StrictEquality, .BinOp .StrictEquality, .BinOp .Assign] ∧
    lexTT "<<<<==<<=".toList =
      [.BinOp .LeftBitshift, .AssignOp .LeftBitshiftAssign, .BinOp .Assign,
       .AssignOp .LeftBitshiftAssign] ∧
    lexTT ">>>>==>>=".toList =
      [.BinOp .UnsignedRightBitshift, .BinOp .GreaterThanOrEqual, .BinOp .Assign,
       .AssignOp .RightBitshiftAssign] ∧
    lexTT "+++".toList = [.Increment, .BinOp .Add] ∧
    lexTT "---".toList = [.Decrement, .BinOp .Subtract] ∧
    ∀ c rest f tt, (f, tt) ∈ opTable c → isPre f rest = true →
      ∃ g ttg, scanOp c rest = .tok ttg g.length ∧ isPre g rest = true ∧
        f.length ≤ g.length := by
  refine ⟨by decide, by decide, by decide, by decide, by decide, ?_⟩
  intro c rest f tt hmem hpre
  obtain ⟨g, ttg, hfind, hgpre, hlen⟩ :=
    find_longest rest (opTable c) (opTable_sorted c) f tt hmem hpre
  refine ⟨g, ttg, ?_, hgpre, hlen⟩
  rw [scanOp, hfind]

/-- C3 witness: on lookahead `">>="` of the `>` family, the two-character
form `>>` matches and the committed form is at least as long (it is `>>=`). -/
theorem claim_C3_witness :
    ∃ g ttg, scanOp '>' ">>=".toList = .tok ttg g.length ∧
      isPre g ">>=".toList = true ∧ (['>', '>'] : List Char).length ≤ g.length :=
  claim_C3_maximal_munch.2.2.2.2.2 '>' ">>=".toList ['>', '>']
    (.BinOp .UnsignedRightBitshift) (by decide) (by decide)

lemma keywordKind_getD_ne (s : List Char) :
    (keywordKind s).getD .Identifier ≠ .Whitespace := by
  by_cases h1 : s = "let".toList
  · subst h1; decide
  by_cases h2 : s = "function".toList
  · subst h2; decide
  by_cases h3 : s = "return".toList
  · subst h3; decide
  by_cases h4 : s = "var".toList
  · subst h4; decide
  by_cases h5 : s = "const".toList
  · subst h5; decide
  by_cases h6 : s = "if".toList
  · subst h6; decide
  by_cases h7 : s = "else".toList
  · subst h7; decide
  by_cases h8 : s = "for".toList
  · subst h8; decide
  by_cases h9 : s = "while".toList
  · subst h9; decide
  by_cases h10 : s = "do".toList
  · subst h10; decide
  by_cases h11 : s = "break".toList
  · subst h11; decide
  by_cases h12 : s = "continue".toList
  · subst h12; decide
  by_cases h13 : s = "new".toList
  · subst h13; decide
  by_cases h14 : s = "delete".toList
  · subst h14; decide
  by_cases h15 : s = "typeof".toList
  · subst h15; decide
  by_cases h16 : s = "instanceof".toList
  · subst h16; decide
  by_cases h17 : s = "in".toList
  · subst h17; decide
  by_cases h18 : s = "void".toList
  · subst h18; decide
  by_cases h19 : s = "this".toList
  · subst h19; decide
  by_cases h20 : s = "null".toList
  · subst h20; decide
  by_cases h21 : s = "true".toList
  · subst h21; decide
  by_cases h22 : s = "false".toList
  · subst h22; decide
  by_cases h23 : s = "switch".toList
  · subst h23; decide
  by_cases h24 : s = "case".toList
  · subst h24; decide
  by_cases h25 : s = "default".toList
  · subst h25; decide
  by_cases h26 : s = "throw".toList
  · subst h26; decide
  by_cases h27 : s = "try".toList
  · subst h27; decide
  by_cases h28 : s = "catch".toList
  · subst h28; decide
  by_cases h29 : s = "finally".toList
  · subst h29; decide
  by_cases h30 : s = "debugger".toList
  · subst h30; decide
  by_cases h31 : s = "with".toList
  · subst h31; decide
  by_cases h32 : s = "class".toList
  · subst h32; decide
  rw [keywordKind.eq_def, if_neg h1, if_neg h2, if_neg h3, if_neg h4, if_neg h5, if_neg h6, if_neg h7, if_neg h8, if_neg h9, if_neg h10, if_neg h11, if_neg h12, if_neg h13, if_neg h14, if_neg h15, if_neg h16, if_neg h17, if_neg h18, if_neg h19, if_neg h20, if_neg h21, if_neg h22, if_neg h23, if_neg h24, if_neg h25, if_neg h26, if_neg h27, if_neg h28, if_neg h29, if_neg h30, if_neg h31, if_neg h32]
  decide

lemma opTable_no_ws (c : Char) (p : List Char × TokenType) (h : p ∈ opTable c) :
    p.2 ≠ .Whitespace := by
  have hall : (opTable c).all (fun q => q.2 != .Whitespace) = true := by
    by_cases h1 : c = '='
    · subst h1; decide
    by_cases h2 : c = '<'
    · subst h2; decide
    by_cases h3 : c = '>'
    · subst h3; decide
    by_cases h4 : c = '+'
    · subst h4; decide
    by_cases h5 : c = '-'
    · subst h5; decide
    by_cases h6 : c = '/'
    · subst h6; decide
    by_cases h7 : c = '*'
    · subst h7; decide
    by_cases h8 : c = '%'
    · subst h8; decide
    by_cases h9 : c = '&'
    · subst h9; decide
    by_cases h10 : c = '|'
    · subst h10; decide
    by_cases h11 : c = '^'
    · subst h11; decide
    by_cases h12 : c = '!'
    · subst h12; decide
    by_cases h13 : c = '~'
    · subst h13; decide
    by_cases h14 : c = '?'
    · subst h14; decide
    by_cases h15 : c = ':'
    · subst h15; decide
    rw [opTable.eq_def, if_neg (by simp [h1]), if_neg (by simp [h2]), if_neg (by simp [h3]), if_neg (by simp [h4]), if_neg (by simp [h5]), if_neg (by simp [h6]), if_neg (by simp [h7]), if_neg (by simp [h8]), if_neg (by simp [h9]), if_neg (by simp [h10]), if_neg (by simp [h11]), if_neg (by simp [h12]), if_neg (by simp [h13]), if_neg (by simp [h14]), if_neg (by simp [h15])]
    rfl
  have := List.all_eq_true.mp hall p h
  simpa using this

lemma numOut_wsOk (p : Nat × Option LexError) : wsOk (numOut p) = true := by
  rcases p with ⟨e, err⟩
  cases err <;> rfl

lemma strOut_wsOk (tt : TokenType) (r : Option Nat) (err : LexError)
    (h : tt ≠ .Whitespace) : wsOk (strOut tt r err) = true := by
  cases r with
  | none => rfl
  | some n =>
    simp only [strOut, wsOk, Bool.or_eq_true, bne_iff_ne, ne_eq]
    left
    exact h

lemma scanOp_wsOk (c : Char) (rest : List Char) : wsOk (scanOp c rest) = true := by
  rw [scanOp]
  cases hf : (opTable c).find? (fun p => isPre p.1 rest) with
  | none => rfl
  | some p =>
    dsimp only
    have hne := opTable_no_ws c p (List.mem_of_find?_eq_some hf)
    simp only [wsOk, Bool.or_eq_true, bne_iff_ne, ne_eq]
    left
    exact hne

lemma scanOne_wsOk (ctx : Option TokenType) (c : Char) (rest : List Char) :
    wsOk (scanOne ctx c rest) = true := by
  rw [scanOne.eq_def]
  by_cases w1 : isWhitespace c = true
  · rw [if_pos w1]; rfl
  rw [if_neg w1]
  by_cases w2 : (c == '\n' || c == '\u2028' || c == '\u2029') = true
  · rw [if_pos w2]; rfl
  rw [if_neg w2]
  by_cases w3 : (c == '\r') = true
  · rw [if_pos w3]
    by_cases w3b : (rest.head? == some '\n') = true
    · rw [if_pos w3b]; rfl
    · rw [if_neg w3b]; rfl
  rw [if_neg w3]
  by_cases w4 : identStart c = true
  · rw [if_pos w4]
    have hne := keywordKind_getD_ne (c :: rest.takeWhile identContinue)
    simp only [wsOk, Bool.or_eq_true, bne_iff_ne, ne_eq]
    left
    exact hne
  rw [if_neg w4]
  by_cases w5 : c.isDigit = true
  · rw [if_pos w5]; exact numOut_wsOk _
  rw [if_neg w5]
  by_cases w6 : (c == '.') = true
  · rw [if_pos w6]
    by_cases w6b : ((rest.head?.map Char.isDigit).getD false) = true
    · rw [if_pos w6b]; exact numOut_wsOk _
    · rw [if_neg w6b]; rfl
  rw [if_neg w6]
  by_cases w7 : (c == '"' || c == '\'') = true
  · rw [if_pos w7]
    exact strOut_wsOk _ _ _ (by simp)
  rw [if_neg w7]
  by_cases w8 : (c == '`') = true
  · rw [if_pos w8]
    exact strOut_wsOk _ _ _ (by simp)
  rw [if_neg w8]
  by_cases w9 : (c == '/') = true
  · rw [if_pos w9]
    by_cases w9a : (rest.head? == some '/') = true
    · rw [if_pos w9a]; rfl
    rw [if_neg w9a]
    by_cases w9b : (rest.head? == some '*') = true
    · rw [if_pos w9b]
      cases hce : commentEnd (rest.drop 1) <;> rfl
    rw [if_neg w9b]
    by_cases w9c : canEndExprOpt ctx = true
    · rw [if_pos w9c]; exact scanOp_wsOk _ _
    rw [if_neg w9c]
    cases hre : regexEnd false rest with
    | none => rfl
    | some n =>
      dsimp only
      by_cases wv : validFlags ((rest.drop n).takeWhile identContinue) = true
      · rw [if_pos wv]; rfl
      · rw [if_neg wv]; rfl
  rw [if_neg w9]
  by_cases w10 : (c == '(') = true
  · rw [if_pos w10]; rfl
  rw [if_neg w10]
  by_cases w11 : (c == ')') = true
  · rw [if_pos w11]; rfl
  rw [if_neg w11]
  by_cases w12 : (c == '\x7b') = true
  · rw [if_pos w12]; rfl
  rw [if_neg w12]
  by_cases w13 : (c == '\x7d') = true
  · rw [if_pos w13]; rfl
  rw [if_neg w13]
  by_cases w14 : (c == '[') = true
  · rw [if_pos w14]; rfl
  rw [if_neg w14]
  by_cases w15 : (c == ']') = true
  · rw [if_pos w15]; rfl
  rw [if_neg w15]
  by_cases w16 : (c == ';') = true
  · rw [if_pos w16]; rfl
  rw [if_neg w16]
  by_cases w17 : (c == ',') = true
  · rw [if_pos w17]; rfl
  rw [if_neg w17]
  exact scanOp_wsOk _ _

lemma tokensOf_cons_some (tok : Token) (e : Option LexError) (items : List Item) :
    tokensOf (⟨some tok, e⟩ :: items) = tok :: tokensOf items := rfl

lemma tokensOf_cons_none (e : Option LexError) (items : List Item) :
    tokensOf (⟨none, e⟩ :: items) = tokensOf items := rfl

lemma lexGo_ws_one (fuel : Nat) : ∀ ctx pos cs t,
    t ∈ tokensOf (lexGo fuel ctx pos cs) → t.tokenType = .Whitespace →
    t.stop = t.start + 1 := by
  induction fuel with
  | zero =>
    intro ctx pos cs t h
    simp [lexGo, tokensOf] at h
  | succ n ih =>
    intro ctx pos cs t h htt
    match cs with
    | [] => simp [lexGo, tokensOf] at h
    | c :: rest =>
      rw [lexGo] at h
      cases hs : scanOne ctx c rest with
      | tok tt extra =>
        rw [hs] at h
        dsimp only at h
        rw [tokensOf_cons_some] at h
        have hws := scanOne_wsOk ctx c rest
        rw [hs] at hws
        simp only [wsOk, Bool.or_eq_true, bne_iff_ne, ne_eq, beq_iff_eq] at hws
        rcases List.mem_cons.mp h with h1 | h1
        · subst h1
          simp only [Token.mk.injEq] at htt
          rcases hws with h2 | h2
          · exact absurd htt h2
          · subst h2
            rfl
        · exact ih _ _ _ _ h1 htt
      | tokErr tt err extra =>
        rw [hs] at h
        dsimp only at h
        rw [tokensOf_cons_some] at h
        have hws := scanOne_wsOk ctx c rest
        rw [hs] at hws
        simp only [wsOk, bne_iff_ne, ne_eq] at hws
        rcases List.mem_cons.mp h with h1 | h1
        · subst h1
          exact absurd htt hws
        · exact ih _ _ _ _ h1 htt
      | fatal err =>
        rw [hs] at h
        dsimp only at h
        rw [tokensOf_cons_none] at h
        simp [tokensOf] at h

/-- C7: every horizontal-whitespace character (space, tab, vertical tab,
form feed, no-break space, U+FEFF) lexes as its own one-character
`Whitespace` token and runs of whitespace are never merged — every
`Whitespace` token the lexer ever produces spans exactly one character; in
particular `" a   "` lexes as exactly
`[Whitespace, Identifier, Whitespace, Whitespace, Whitespace]`. -/
theorem claim_C7_whitespace_non_coalescing :
    lex "\t\u000B\u000C \u00A0\uFEFF".toList =
      [⟨some ⟨.Whitespace, 0, 1⟩, none⟩, ⟨some ⟨.Whitespace, 1, 2⟩, none⟩,
       ⟨some ⟨.Whitespace, 2, 3⟩, none⟩, ⟨some ⟨.Whitespace, 3, 4⟩, none⟩,
       ⟨some ⟨.Whitespace, 4, 5⟩, none⟩, ⟨some ⟨.Whitespace, 5, 6⟩, none⟩] ∧
    lex " a   ".toList =
      [⟨some ⟨.Whitespace, 0, 1⟩, none⟩, ⟨some ⟨.Identifier, 1, 2⟩, none⟩,
       ⟨some ⟨.Whitespace, 2, 3⟩, none⟩, ⟨some ⟨.Whitespace, 3, 4⟩, none⟩,
       ⟨some ⟨.Whitespace, 4, 5⟩, none⟩] ∧
    ∀ src t, t ∈ tokensOf (lex src) → t.tokenType = .Whitespace →
      t.stop = t.start + 1 := by
  refine ⟨by decide, by decide, ?_⟩
  intro src t h htt
  exact lexGo_ws_one _ _ _ _ _ h htt

/-- C7 witness: the width property applied to the first whitespace token of
`" a   "`. -/
theorem claim_C7_witness :
    (⟨.Whitespace, 0, 1⟩ : Token).stop = (⟨.Whitespace, 0, 1⟩ : Token).start + 1 :=
  claim_C7_whitespace_non_coalescing.2.2 " a   ".toList ⟨.Whitespace, 0, 1⟩
    (by decide) (by decide)

end RsLint
